import Mathlib

/-!
A verification development for the XPath 1.0 evaluator of `rust-xml_dom_xpath`
(`src/xpath1/evaluate/{mod,node_set,filters}.rs` and the expression model in
`src/xpath1/model`).

The document/node model (the external `xml_dom` crate) is embedded as a rose
tree of typed nodes together with zipper-style node references, so that the
parent / child / sibling / attribute / owner-document accessors consumed by the
evaluator (spec section 6) are all total, executable functions.  The evaluator,
the axis functions of `NodeSet`, and the filter pipeline are then translated
function by function from the Rust source.  Rust panics (`unwrap`,
`unimplemented!`) are modelled by `Option`: a `none` result means the original
program panics on that input.
-/

/-- Node types of the external DOM (`xml_dom::level2::NodeType`), restricted to
the variants the evaluator inspects. -/
inductive XTy where
  | Document
  | Element
  | Attribute
  | Text
  | Comment
  | ProcessingInstruction
  | CData
  deriving DecidableEq, Repr

/-- A qualified name of the external DOM (`xml_dom::level2::Name`): an optional
namespace prefix together with a local part. -/
structure XName where
  pfx : Option String
  localPart : String
  deriving DecidableEq, Repr

/-- The data stored at one DOM node: its type, qualified name, processing
instruction target and the ordered list of attribute names. -/
structure XNodeData where
  ty : XTy
  name : XName
  target : String
  attrs : List XName
  deriving DecidableEq, Repr

/-- The document model as a rose tree (the external `xml_dom` tree, parent
pointers are recovered from positions). -/
inductive XTree where
  | node : XNodeData → List XTree → XTree

mutual

def XTree.decEq : (a b : XTree) → Decidable (a = b)
  | .node d cs, .node d' cs' =>
    if hd : d = d' then
      match XTree.decEqList cs cs' with
      | isTrue h => isTrue (by rw [hd, h])
      | isFalse h => isFalse (fun hh => by cases hh; exact h rfl)
    else isFalse (fun hh => by cases hh; exact hd rfl)

def XTree.decEqList : (as bs : List XTree) → Decidable (as = bs)
  | [], [] => isTrue rfl
  | [], _ :: _ => isFalse (fun h => by cases h)
  | _ :: _, [] => isFalse (fun h => by cases h)
  | a :: as, b :: bs =>
    match XTree.decEq a b, XTree.decEqList as bs with
    | isTrue h1, isTrue h2 => isTrue (by rw [h1, h2])
    | isFalse h1, _ => isFalse (fun hh => by cases hh; exact h1 rfl)
    | _, isFalse h2 => isFalse (fun hh => by cases hh; exact h2 rfl)

end

instance : DecidableEq XTree := XTree.decEq

def XTree.data : XTree → XNodeData
  | .node d _ => d

def XTree.children : XTree → List XTree
  | .node _ cs => cs

/-- One ancestor layer of a zipper: the ancestor's data, the siblings to the
left of the focused subtree (in document order) and the siblings to its
right. -/
abbrev Ctx := List (XNodeData × List XTree × List XTree)

/-- A node reference into a fixed document: the focused subtree plus the full
context above it.  Two `Loc`s of the same document are equal exactly when they
reference the same node, matching `RefNode` identity in the Rust code. -/
structure Loc where
  up : Ctx
  cur : XTree
  deriving DecidableEq

/-- A DOM node reference (`xml_dom::level2::RefNode`): either a node of the
tree proper, or the `i`-th attribute node of the element focused by `l`. -/
inductive NodeRef where
  | tree (l : Loc)
  | attr (l : Loc) (i : Nat)
  deriving DecidableEq

/-- The `Loc`s of the children of a node, reconstructed split by split;
`lefts` accumulates the children already passed. -/
def childSplits (pd : XNodeData) (up : Ctx) :
    List XTree → List XTree → List Loc
  | _, [] => []
  | lefts, c :: rest =>
    ⟨(pd, lefts, rest) :: up, c⟩ :: childSplits pd up (lefts ++ [c]) rest

def childLocs (l : Loc) : List Loc :=
  match l.cur with
  | .node d cs => childSplits d l.up [] cs

/-- DOM accessor `Node::node_type`. -/
def nodeType : NodeRef → XTy
  | .tree l => l.cur.data.ty
  | .attr _ _ => XTy.Attribute

/-- DOM accessor `Node::node_name`. -/
def nodeName : NodeRef → XName
  | .tree l => l.cur.data.name
  | .attr l i => l.cur.data.attrs.getD i ⟨none, ""⟩

/-- DOM accessor `ProcessingInstruction::target` (only ever read after the
node type has been checked). -/
def targetOf : NodeRef → String
  | .tree l => l.cur.data.target
  | .attr _ _ => ""

/-- DOM accessor `Node::parent_node` on a `Loc`: pop one context layer and
reassemble the parent's subtree. -/
def parentLoc (l : Loc) : Option Loc :=
  match l.up with
  | [] => none
  | (d, lefts, rights) :: rest => some ⟨rest, .node d (lefts ++ l.cur :: rights)⟩

/-- DOM accessor `Node::parent_node`; attribute nodes have no parent
(DOM Level 2). -/
def parentNode : NodeRef → Option NodeRef
  | .tree l => (parentLoc l).map NodeRef.tree
  | .attr _ _ => none

/-- DOM accessor `Node::child_nodes`; attribute nodes have no children in this
model. -/
def childNodes : NodeRef → List NodeRef
  | .tree l => (childLocs l).map NodeRef.tree
  | .attr _ _ => []

/-- DOM accessor `Node::next_sibling`. -/
def nextSiblingLoc (l : Loc) : Option Loc :=
  match l.up with
  | [] => none
  | (d, lefts, rights) :: rest =>
    match rights with
    | [] => none
    | r :: rights' => some ⟨(d, lefts ++ [l.cur], rights') :: rest, r⟩

def nextSibling : NodeRef → Option NodeRef
  | .tree l => (nextSiblingLoc l).map NodeRef.tree
  | .attr _ _ => none

/-- The attribute nodes of the element focused at `l`, paired with their names,
starting at index `i`.  This realizes the DOM accessor `Node::attributes`. -/
def attrPairs (l : Loc) : Nat → List XName → List (XName × NodeRef)
  | _, [] => []
  | i, nm :: rest => (nm, NodeRef.attr l i) :: attrPairs l (i + 1) rest

/-- DOM accessor `Node::attributes` as an ordered name-to-node association. -/
def attributesOf : NodeRef → List (XName × NodeRef)
  | .tree l => attrPairs l 0 l.cur.data.attrs
  | .attr _ _ => []

/-- Rebuild the root `Loc` above a context. -/
def rootLoc : Ctx → XTree → Loc
  | [], t => ⟨[], t⟩
  | (d, lefts, rights) :: rest, t => rootLoc rest (.node d (lefts ++ t :: rights))

/-- DOM accessor `Node::owner_document`: every node other than the document
node itself is owned by the root when the root is a document node (DOM Level 2:
the document's own `owner_document` is `None`). -/
def ownerDocument : NodeRef → Option NodeRef
  | .tree ⟨[], _⟩ => none
  | .tree ⟨e :: rest, t⟩ =>
    let r := rootLoc (e :: rest) t
    if r.cur.data.ty = XTy.Document then some (.tree r) else none
  | .attr l _ =>
    let r := rootLoc l.up l.cur
    if r.cur.data.ty = XTy.Document then some (.tree r) else none

/-- Namespace-declaration test on attribute names, per the doc comments of
`NodeSet::attribute` / `NodeSet::namespace`: an attribute whose `local_name` or
`prefix` is `xmlns`. -/
def isNamespaceAttribute (nm : XName) : Bool :=
  nm.pfx == some "xmlns" || nm.localPart == "xmlns"

/-- A `NodeSet` (`node_set.rs`): an ordered sequence of node references,
duplicates permitted. -/
abbrev NodeSet := List NodeRef

/-- The parent chain of a `Loc`, nearest ancestor first.  This is the
`while let Some(node) = next` loop inside `NodeSet::ancestor`'s `parents`,
realized by structural recursion on the context. -/
def parentChainAux : Ctx → XTree → List Loc
  | [], _ => []
  | (d, lefts, rights) :: rest, t =>
    ⟨rest, .node d (lefts ++ t :: rights)⟩ ::
      parentChainAux rest (.node d (lefts ++ t :: rights))

def parentChain (l : Loc) : List Loc :=
  parentChainAux l.up l.cur

/-- Per-node expansion of the `ancestor` axis: the collected parent chain. -/
def ancestorsOf : NodeRef → List NodeRef
  | .tree l => (parentChain l).map NodeRef.tree
  | .attr _ _ => []

/-- The chain of following siblings of a node, realized by structural
recursion on the right-sibling list.  This is the `while let Some(sibling)`
loop inside `NodeSet::following_sibling`. -/
def sibChainAux (d : XNodeData) (rest : Ctx) :
    List XTree → XTree → List XTree → List Loc
  | _, _, [] => []
  | lefts, t, r :: rights =>
    ⟨(d, lefts ++ [t], rights) :: rest, r⟩ ::
      sibChainAux d rest (lefts ++ [t]) r rights

/-- Per-node expansion of the `following-sibling` axis. -/
def followingSiblingsOf : NodeRef → List NodeRef
  | .tree ⟨[], _⟩ => []
  | .tree ⟨(d, lefts, rights) :: rest, t⟩ =>
    (sibChainAux d rest lefts t rights).map NodeRef.tree
  | .attr _ _ => []

/- The descendant expansion of `NodeSet::descendant`, realized by mutual
structural recursion over the tree: the children of the focused node followed
by the concatenation of each child's own descendant expansion (the source's
`descendants.append(&mut next)`). -/
mutual

def descOfTree (up : Ctx) : XTree → List Loc
  | .node d cs => childSplits d up [] cs ++ descOfChildren d up [] cs

def descOfChildren (d : XNodeData) (up : Ctx) (lefts : List XTree) :
    List XTree → List Loc
  | [] => []
  | c :: rest =>
    descOfTree ((d, lefts, rest) :: up) c ++ descOfChildren d up (lefts ++ [c]) rest

end

/-- Per-node expansion `NodeSet::from(node).descendant()`. -/
def descendantOf : NodeRef → List NodeRef
  | .tree l => (descOfTree l.up l.cur).map NodeRef.tree
  | .attr _ _ => []

/- The reverse-adjacency descendant expansion used by `NodeSet::preceding`'s
inner `reverse_descendant`: the reversed child list, then the concatenation of
each reversed child's own reverse expansion.  `revDescOfChildren` collects the
per-child expansions in document order; the caller reverses that list before
flattening, which yields exactly the reversed-iteration order of the source. -/
mutual

def revDescOfTree (up : Ctx) : XTree → List Loc
  | .node d cs =>
    (childSplits d up [] cs).reverse ++
      ((revDescOfChildren d up [] cs).reverse).flatten

def revDescOfChildren (d : XNodeData) (up : Ctx) (lefts : List XTree) :
    List XTree → List (List Loc)
  | [] => []
  | c :: rest =>
    revDescOfTree ((d, lefts, rest) :: up) c ::
      revDescOfChildren d up (lefts ++ [c]) rest

end

/-- Per-node expansion `reverse_descendant(&NodeSet::from(node))`. -/
def revDescendantOf : NodeRef → List NodeRef
  | .tree l => (revDescOfTree l.up l.cur).map NodeRef.tree
  | .attr _ _ => []

/-- `NodeSet::self_node`: just the context nodes. -/
def NodeSet.self_node (ns : NodeSet) : NodeSet :=
  ns

/-- `NodeSet::parent`: `filter_map(parent_node)`. -/
def NodeSet.parent (ns : NodeSet) : NodeSet :=
  ns.filterMap parentNode

/-- `NodeSet::ancestor`: per-node parent chains, concatenated. -/
def NodeSet.ancestor (ns : NodeSet) : NodeSet :=
  (ns.map ancestorsOf).flatten

/-- `NodeSet::ancestor_or_self`: the node itself, then its parent chain. -/
def NodeSet.ancestor_or_self (ns : NodeSet) : NodeSet :=
  (ns.map (fun n => n :: ancestorsOf n)).flatten

/-- `NodeSet::child`: per-node child lists, concatenated. -/
def NodeSet.child (ns : NodeSet) : NodeSet :=
  (ns.map childNodes).flatten

/-- `NodeSet::descendant`: the children, then each child's own descendant
expansion (`NodeSet::from(node).descendant()` is `descendantOf`, see
`descendantOf_eq`). -/
def NodeSet.descendant (ns : NodeSet) : NodeSet :=
  let ds := NodeSet.child ns
  ds ++ (ds.map descendantOf).flatten

/-- `NodeSet::descendant_or_self`: the context nodes, then each node's
descendant expansion. -/
def NodeSet.descendant_or_self (ns : NodeSet) : NodeSet :=
  let ds := NodeSet.self_node ns
  ds ++ (ds.map descendantOf).flatten

/-- `NodeSet::document`: `filter_map(owner_document)`. -/
def NodeSet.document (ns : NodeSet) : NodeSet :=
  ns.filterMap ownerDocument

/-- `NodeSet::following_sibling`: per-node following-sibling chains. -/
def NodeSet.following_sibling (ns : NodeSet) : NodeSet :=
  (ns.map followingSiblingsOf).flatten

/-- `NodeSet::following`: the `descendant_or_self` expansion of each following
sibling, in following-sibling order. -/
def NodeSet.following (ns : NodeSet) : NodeSet :=
  ((NodeSet.following_sibling ns).map (fun n => n :: descendantOf n)).flatten

/-- `NodeSet::preceding_sibling`: for each node, the parent's children strictly
before it (the source walks the parent's child list and breaks at the context
node, i.e. `takeWhile (· ≠ node)`). -/
def NodeSet.preceding_sibling (ns : NodeSet) : NodeSet :=
  (ns.map (fun node =>
    match parentNode node with
    | none => []
    | some p => (childNodes p).takeWhile (fun c => c ≠ node))).flatten

/-- `NodeSet::preceding`: the reversed preceding siblings, then each one's
`reverse_descendant` expansion in that reversed order. -/
def NodeSet.preceding (ns : NodeSet) : NodeSet :=
  let previous := (NodeSet.preceding_sibling ns).reverse
  previous ++ (previous.map revDescendantOf).flatten

/-- `NodeSet::attribute` (named with the same suffix as the namespace axis,
`attribute` being a Lean command keyword): for element nodes, all attribute
nodes whose name is not a namespace declaration; empty for every other node
type. -/
def NodeSet.attributeAxis (ns : NodeSet) : NodeSet :=
  (ns.filterMap (fun node =>
    if nodeType node = XTy.Element then
      some ((attributesOf node).filterMap (fun a =>
        if isNamespaceAttribute a.1 then none else some a.2))
    else none)).flatten

/-- `NodeSet::namespace` (`namespace` is a Lean keyword, hence the suffix):
for element nodes, exactly the attribute nodes whose name is a namespace
declaration; empty for every other node type. -/
def NodeSet.namespaceAxis (ns : NodeSet) : NodeSet :=
  (ns.filterMap (fun node =>
    if nodeType node = XTy.Element then
      some ((attributesOf node).filterMap (fun a =>
        if isNamespaceAttribute a.1 then some a.2 else none))
    else none)).flatten

/-- `AxisSpecifier` (`model/select.rs`): the thirteen XPath axes. -/
inductive AxisSpecifier where
  | Ancestor
  | AncestorOrSelf
  | Attribute
  | Child
  | Descendant
  | DescendantOrSelf
  | Following
  | FollowingSibling
  | Namespace
  | Parent
  | Preceding
  | PrecedingSibling
  | SelfNode
  deriving DecidableEq, Repr

/-- `NodeTest` (`model/select.rs`). -/
inductive NodeTest where
  | All
  | Named (name : String)
  | Comment
  | Text
  | ProcessingInstruction (t : Option String)
  | Node
  deriving DecidableEq, Repr

/-- `Predicate` (`model/predicate.rs`).  The payloads (`ExprNode`, `Terminal`,
`FunctionCall`) are never inspected by the evaluator — `PredicateFilter::apply`
is `unimplemented!` — so only the variant shape is modelled. -/
inductive Predicate where
  | Expr
  | Terminal
  | Function
  deriving DecidableEq, Repr

/-- `Select` (`model/select.rs`): an axis specifier and a node test. -/
structure Select where
  axis : AxisSpecifier
  test : NodeTest
  deriving DecidableEq, Repr

/-- `Select::axis_specifier`. -/
def Select.axis_specifier (s : Select) : AxisSpecifier :=
  s.axis

/-- `Select::node_test`. -/
def Select.node_test (s : Select) : NodeTest :=
  s.test

/-- `Step` (`model/step.rs`): a select expression plus predicates. -/
structure Step where
  select : Select
  predicates : List Predicate
  deriving DecidableEq, Repr

/-- `Step::select_expr`. -/
def Step.select_expr (s : Step) : Select :=
  s.select

/-- `Step::predicate_exprs`. -/
def Step.predicate_exprs (s : Step) : List Predicate :=
  s.predicates

/-- `LocationPath` (`model/path.rs`). -/
structure LocationPath where
  root : Bool
  steps : List Step
  deriving DecidableEq, Repr

/-- `LocationPath::is_absolute`. -/
def LocationPath.is_absolute (p : LocationPath) : Bool :=
  p.root

/-- `XPathObject` (`xpath1/mod.rs`).  The `Number` payload is an `f64` in the
source; it is never constructed by the evaluator, so its payload is not
modelled. -/
inductive XPathObject where
  | NodeSetV (ns : NodeSet)
  | Boolean (b : Bool)
  | Number
  | StringV (s : String)
  deriving DecidableEq

/-- `EvaluationError` (`evaluate/mod.rs`): its only variant. -/
inductive EvaluationError where
  | CycleError
  deriving DecidableEq, Repr

/-- Modelled from the spec: the external `xml_dom` `Name::from_str` parser
(spec section 6 collaborator interface).  A qualified name is an optional
prefix and a local part separated by one colon; each part must be a non-empty
colon-free token.  Only its fallibility on strings that are not valid
qualified names matters to the claims below. -/
def splitOnColon : List Char → List (List Char)
  | [] => [[]]
  | c :: rest =>
    match splitOnColon rest, decide (c = ':') with
    | r, true => [] :: r
    | [], false => [[c]]
    | h :: t, false => (c :: h) :: t

def nameFromStr (s : String) : Option XName :=
  match splitOnColon s.toList with
  | [n] => if n.isEmpty then none else some ⟨none, ⟨n⟩⟩
  | [p, n] =>
    if p.isEmpty || n.isEmpty then none else some ⟨some ⟨p⟩, ⟨n⟩⟩
  | _ => none

/-- `NodeTestFilter::apply` (`filters.rs`).  A `none` result models the
`Name::from_str(..).unwrap()` panic on an unparseable name, which the source
reaches only after the principal-type check has succeeded. -/
def nodeTestApply (principal : XTy) (test : NodeTest) (node : NodeRef) :
    Option Bool :=
  match test with
  | NodeTest.All => some (nodeType node == principal)
  | NodeTest.Named name =>
    if nodeType node == principal then
      match nameFromStr name with
      | some nm => some (nodeName node == nm)
      | none => none
    else some false
  | NodeTest.Comment => some (nodeType node == XTy.Comment)
  | NodeTest.Text => some (nodeType node == XTy.Text)
  | NodeTest.ProcessingInstruction none =>
    some (nodeType node == XTy.ProcessingInstruction)
  | NodeTest.ProcessingInstruction (some t) =>
    some (nodeType node == XTy.ProcessingInstruction && targetOf node == t)
  | NodeTest.Node => some true

/-- The principal node type chosen by `filter_nodes` (`evaluate/mod.rs`,
lines 98-101): `Attribute` for the attribute axis, `Element` otherwise. -/
def principalOf (axis : AxisSpecifier) : XTy :=
  match axis with
  | AxisSpecifier.Attribute => XTy.Attribute
  | _ => XTy.Element

/-- The filter chain `filters.iter().all(|filter| filter.apply(node))` of
`filter_nodes`: the node-test filter first, then one `PredicateFilter` per
predicate.  `Iterator::all` short-circuits, so the predicate filters (whose
`apply` is `unimplemented!`, modelled as a panic/`none`) are reached only when
the node test succeeded. -/
def applyFilters (step : Step) (node : NodeRef) : Option Bool :=
  match nodeTestApply (principalOf step.select_expr.axis_specifier)
      step.select_expr.node_test node with
  | none => none
  | some false => some false
  | some true =>
    if step.predicate_exprs.isEmpty then some true else none

/-- `filter_nodes` (`evaluate/mod.rs`): keep the nodes passing every filter;
a panic while filtering any node aborts the whole call. -/
def filterNodes (ns : NodeSet) (step : Step) : Option NodeSet :=
  match ns with
  | [] => some []
  | n :: rest =>
    match applyFilters step n with
    | none => none
    | some b =>
      (filterNodes rest step).map (fun r => if b then n :: r else r)

/-- `select_nodes` (`evaluate/mod.rs`): dispatch on the step's axis. -/
def selectNodes (ns : NodeSet) (step : Step) : NodeSet :=
  match step.select_expr.axis_specifier with
  | AxisSpecifier.Ancestor => NodeSet.ancestor ns
  | AxisSpecifier.AncestorOrSelf => NodeSet.ancestor_or_self ns
  | AxisSpecifier.Attribute => NodeSet.attributeAxis ns
  | AxisSpecifier.Child => NodeSet.child ns
  | AxisSpecifier.Descendant => NodeSet.descendant ns
  | AxisSpecifier.DescendantOrSelf => NodeSet.descendant_or_self ns
  | AxisSpecifier.Following => NodeSet.following ns
  | AxisSpecifier.FollowingSibling => NodeSet.following_sibling ns
  | AxisSpecifier.Namespace => NodeSet.namespaceAxis ns
  | AxisSpecifier.Parent => NodeSet.parent ns
  | AxisSpecifier.Preceding => NodeSet.preceding ns
  | AxisSpecifier.PrecedingSibling => NodeSet.preceding_sibling ns
  | AxisSpecifier.SelfNode => NodeSet.self_node ns

/-- The initial working set of `evaluate_path` (`evaluate/mod.rs`, lines
39-43): the `document` expansion for an absolute path, otherwise a clone of
the context. -/
def initialSet (ns : NodeSet) (xpath : LocationPath) : NodeSet :=
  if xpath.is_absolute then NodeSet.document ns else ns

/-- `evaluate_path` (`evaluate/mod.rs`).  Each loop iteration recomputes
`next_set` from the original `node_set` argument (the source passes `node_set`,
not `&next_set`, to `select_nodes`); a panic in `filter_nodes` aborts the call
(`none`), and on completion the final set is returned as `Ok`. -/
def evaluatePath (node_set : NodeSet) (xpath : LocationPath) :
    Option (Except EvaluationError XPathObject) :=
  (xpath.steps.foldl
      (fun acc step =>
        acc.bind (fun _ => filterNodes (selectNodes node_set step) step))
      (some (initialSet node_set xpath))).map
    (fun s => Except.ok (XPathObject.NodeSetV s))

/-- Modelled from the spec: section 4.3 step 3 mandates strict left-to-right
chaining — each step's axis expansion reads the previous step's filtered
result, not the original seed context.  Identical to `evaluatePath` except
that the accumulator is fed to `selectNodes`. -/
def chainedEvaluatePath (node_set : NodeSet) (xpath : LocationPath) :
    Option (Except EvaluationError XPathObject) :=
  (xpath.steps.foldl
      (fun acc step =>
        acc.bind (fun cur => filterNodes (selectNodes cur step) step))
      (some (initialSet node_set xpath))).map
    (fun s => Except.ok (XPathObject.NodeSetV s))

/- Modelled from the spec (section 4.1, `descendant` row; section 8,
"Descendant completeness"): the pre-order descendant sequence, each child
followed immediately by its own fully-emitted subtree
(child1, descendants(child1), child2, descendants(child2), ...). -/
mutual

def preOrdTree (up : Ctx) : XTree → List Loc
  | .node d cs => preOrdChildren d up [] cs

def preOrdChildren (d : XNodeData) (up : Ctx) (lefts : List XTree) :
    List XTree → List Loc
  | [] => []
  | c :: rest =>
    ⟨(d, lefts, rest) :: up, c⟩ ::
      (preOrdTree ((d, lefts, rest) :: up) c ++
        preOrdChildren d up (lefts ++ [c]) rest)

end

/-- Modelled from the spec: the per-node pre-order descendant sequence (the
nodes reachable by repeated child expansion, child-subtree interleaved). -/
def preorderDescendantsOf : NodeRef → List NodeRef
  | .tree l => (preOrdTree l.up l.cur).map NodeRef.tree
  | .attr _ _ => []

/-- Modelled from the spec (glossary): document order is the depth-first,
pre-order, left-to-right traversal of the document tree. -/
def docOrderOf (t : XTree) : List NodeRef :=
  NodeRef.tree ⟨[], t⟩ :: preorderDescendantsOf (NodeRef.tree ⟨[], t⟩)

/-- Whether a reference denotes a tree node (as opposed to an attribute —
and hence namespace — node). -/
def NodeRef.isTreeNode : NodeRef → Bool
  | .tree _ => true
  | .attr _ _ => false

/-- An element node datum with a given local name and no attributes. -/
def elemData (n : String) : XNodeData :=
  ⟨XTy.Element, ⟨none, n⟩, "", []⟩

/-- An element tree node with a given local name and children. -/
def elemN (n : String) (cs : List XTree) : XTree :=
  .node (elemData n) cs

/-- A document node datum. -/
def docData : XNodeData :=
  ⟨XTy.Document, ⟨none, "#document"⟩, "", []⟩

/-- Example document for the descendant-order claims: `A{B{C}, D}`. -/
def exDescTree : XTree :=
  elemN "A" [elemN "B" [elemN "C" []], elemN "D" []]

/-- Example document for the preceding-order claims: `A{B{C, D}, E}`. -/
def exPrecTree : XTree :=
  elemN "A" [elemN "B" [elemN "C" [], elemN "D" []], elemN "E" []]

/-- The reference to element `E` of `exPrecTree`. -/
def exPrecE : NodeRef :=
  .tree ⟨[(elemData "A", [elemN "B" [elemN "C" [], elemN "D" []]], [])],
    elemN "E" []⟩

/-- Example document for the evaluator claims: `document{a{b}}`. -/
def exDocTree : XTree :=
  .node docData [elemN "a" [elemN "b" []]]

/-- The document node of `exDocTree`. -/
def exDocRef : NodeRef :=
  .tree ⟨[], exDocTree⟩

/-- The element `a` of `exDocTree`. -/
def exARef : NodeRef :=
  .tree ⟨[(docData, [], [])], elemN "a" [elemN "b" []]⟩

/-- A child step with a name test and no predicates. -/
def childStepNamed (n : String) : Step :=
  ⟨⟨AxisSpecifier.Child, NodeTest.Named n⟩, []⟩

/-- The `while let Some(node) = next` loop of the inner `parents` function of
`NodeSet::ancestor` (`node_set.rs`, lines 111-118), written over an arbitrary
parent accessor, the shape the external DOM interface actually allows
(parent pointers may form cycles in a malformed tree).  `fuel` bounds the
number of iterations observed; a `none` result means the loop has not
finished within `fuel` iterations.  The loop body pushes the node and
follows its parent pointer; it keeps no visited set. -/
def parentsLoop {α : Type} (parentOf : α → Option α) :
    Nat → Option α → List α → Option (List α)
  | _, none, acc => some acc
  | 0, some _, _ => none
  | fuel + 1, some n, acc => parentsLoop parentOf fuel (parentOf n) (acc ++ [n])

instance : DecidableEq (Except EvaluationError XPathObject) := fun a b =>
  match a, b with
  | .ok x, .ok y =>
    if h : x = y then isTrue (by rw [h])
    else isFalse (fun hh => by cases hh; exact h rfl)
  | .error x, .error y =>
    if h : x = y then isTrue (by rw [h])
    else isFalse (fun hh => by cases hh; exact h rfl)
  | .ok _, .error _ => isFalse (fun hh => by cases hh)
  | .error _, .ok _ => isFalse (fun hh => by cases hh)

/-- Example element with one ordinary attribute and one namespace-declaration
attribute. -/
def exAttrElem : XTree :=
  .node ⟨XTy.Element, ⟨none, "e"⟩, "", [⟨none, "id"⟩, ⟨some "xmlns", "x"⟩]⟩ []

/-- The reference to `exAttrElem` as a root element. -/
def exAttrRef : NodeRef :=
  .tree ⟨[], exAttrElem⟩

/-- The defining equation of the parent-walking loop: follow `parentNode`
once, then continue. -/
theorem ancestorsOf_eq (r : NodeRef) :
    ancestorsOf r =
      match parentNode r with
      | none => []
      | some p => p :: ancestorsOf p := by
  cases r with
  | attr l i => rfl
  | tree l =>
    obtain ⟨up, cur⟩ := l
    cases up with
    | nil => rfl
    | cons e rest => obtain ⟨d, lefts, rights⟩ := e; rfl

/-- The defining equation of the sibling-walking loop: follow `nextSibling`
once, then continue. -/
theorem followingSiblingsOf_eq (r : NodeRef) :
    followingSiblingsOf r =
      match nextSibling r with
      | none => []
      | some s => s :: followingSiblingsOf s := by
  cases r with
  | attr l i => rfl
  | tree l =>
    obtain ⟨up, cur⟩ := l
    cases up with
    | nil => rfl
    | cons e rest =>
      obtain ⟨d, lefts, rights⟩ := e
      cases rights with
      | nil => rfl
      | cons r rights' => rfl

/-- `descOfChildren` concatenates the per-child descendant expansions. -/
theorem descOfChildren_eq (d : XNodeData) (up : Ctx) :
    ∀ (cs : List XTree) (lefts : List XTree),
      descOfChildren d up lefts cs =
        ((childSplits d up lefts cs).map (fun c => descOfTree c.up c.cur)).flatten
  | [], _ => rfl
  | c :: rest, lefts => by
    simp only [descOfChildren, childSplits, List.map_cons, List.flatten_cons]
    rw [descOfChildren_eq d up rest (lefts ++ [c])]

/-- The defining equation of the source's recursion:
`descendant = child ++ flat_map descendant child`. -/
theorem descendantOf_eq (r : NodeRef) :
    descendantOf r = childNodes r ++ ((childNodes r).map descendantOf).flatten := by
  cases r with
  | attr l i => rfl
  | tree l =>
    obtain ⟨up, cur⟩ := l
    cases cur with
    | node d cs =>
      simp only [descendantOf, childNodes, childLocs, descOfTree, List.map_append,
        descOfChildren_eq, List.map_map, List.map_flatten]
      simp only [Function.comp_def, descendantOf]

/-- `revDescOfChildren` is the list of per-child reverse expansions. -/
theorem revDescOfChildren_eq (d : XNodeData) (up : Ctx) :
    ∀ (cs : List XTree) (lefts : List XTree),
      revDescOfChildren d up lefts cs =
        (childSplits d up lefts cs).map (fun c => revDescOfTree c.up c.cur)
  | [], _ => rfl
  | c :: rest, lefts => by
    simp only [revDescOfChildren, childSplits, List.map_cons]
    rw [revDescOfChildren_eq d up rest (lefts ++ [c])]

/-- The defining equation of the source's `reverse_descendant` recursion:
reversed children, then their reverse expansions in that reversed order. -/
theorem revDescendantOf_eq (r : NodeRef) :
    revDescendantOf r =
      (childNodes r).reverse ++
        (((childNodes r).reverse).map revDescendantOf).flatten := by
  cases r with
  | attr l i => rfl
  | tree l =>
    obtain ⟨up, cur⟩ := l
    cases cur with
    | node d cs =>
      simp only [revDescendantOf, revDescOfTree, childNodes, childLocs,
        List.map_append, List.map_reverse, revDescOfChildren_eq, List.map_map,
        List.map_flatten]
      simp only [Function.comp_def, revDescendantOf]

/-- Prepending a list and appending its per-element expansions is a
permutation of interleaving each element with its own expansion. -/
theorem cons_flatten_perm {α : Type} (f : α → List α) :
    ∀ xs : List α,
      (xs ++ (xs.map f).flatten).Perm ((xs.map (fun c => c :: f c)).flatten)
  | [] => by simp
  | x :: xs => by
    simp only [List.map_cons, List.flatten_cons, List.cons_append]
    refine List.Perm.cons x ?_
    have h1 : (xs ++ (f x ++ (xs.map f).flatten)).Perm
        (f x ++ (xs ++ (xs.map f).flatten)) := by
      rw [← List.append_assoc, ← List.append_assoc]
      exact List.Perm.append_right _ List.perm_append_comm
    exact h1.trans (List.Perm.append_left (f x) (cons_flatten_perm f xs))

/-- Pointwise permutations of mapped lists flatten to permuted lists. -/
theorem flatten_perm_of_forall {α β : Type} (f g : β → List α) :
    ∀ xs : List β, (∀ a ∈ xs, (f a).Perm (g a)) →
      ((xs.map f).flatten).Perm ((xs.map g).flatten)
  | [], _ => by simp
  | x :: xs, h => by
    simp only [List.map_cons, List.flatten_cons]
    exact (h x (by simp)).append
      (flatten_perm_of_forall f g xs (fun a ha => h a (by simp [ha])))

mutual

theorem descOfTree_perm (up : Ctx) :
    ∀ t : XTree, (descOfTree up t).Perm (preOrdTree up t)
  | .node d cs => by
    simp only [descOfTree, preOrdTree]
    exact descOfChildren_perm d up cs []

theorem descOfChildren_perm (d : XNodeData) (up : Ctx) :
    ∀ (cs : List XTree) (lefts : List XTree),
      (childSplits d up lefts cs ++ descOfChildren d up lefts cs).Perm
        (preOrdChildren d up lefts cs)
  | [], lefts => by simp [childSplits, descOfChildren, preOrdChildren]
  | c :: rest, lefts => by
    simp only [childSplits, descOfChildren, preOrdChildren, List.cons_append]
    refine List.Perm.cons _ ?_
    have h1 : (childSplits d up (lefts ++ [c]) rest ++
        (descOfTree ((d, lefts, rest) :: up) c ++
          descOfChildren d up (lefts ++ [c]) rest)).Perm
        (descOfTree ((d, lefts, rest) :: up) c ++
          (childSplits d up (lefts ++ [c]) rest ++
            descOfChildren d up (lefts ++ [c]) rest)) := by
      rw [← List.append_assoc, ← List.append_assoc]
      exact List.Perm.append_right _ List.perm_append_comm
    exact h1.trans
      ((descOfTree_perm ((d, lefts, rest) :: up) c).append
        (descOfChildren_perm d up rest (lefts ++ [c])))

end

mutual

theorem revDescOfTree_perm (up : Ctx) :
    ∀ t : XTree, (revDescOfTree up t).Perm (descOfTree up t)
  | .node d cs => by
    simp only [revDescOfTree, descOfTree]
    refine List.Perm.append ((childSplits d up [] cs).reverse_perm) ?_
    exact (List.Perm.flatten (revDescOfChildren d up [] cs).reverse_perm).trans
      (revDescOfChildren_flatten_perm d up cs [])

theorem revDescOfChildren_flatten_perm (d : XNodeData) (up : Ctx) :
    ∀ (cs : List XTree) (lefts : List XTree),
      ((revDescOfChildren d up lefts cs).flatten).Perm
        (descOfChildren d up lefts cs)
  | [], lefts => by simp [revDescOfChildren, descOfChildren]
  | c :: rest, lefts => by
    simp only [revDescOfChildren, descOfChildren, List.flatten_cons]
    exact (revDescOfTree_perm ((d, lefts, rest) :: up) c).append
      (revDescOfChildren_flatten_perm d up rest (lefts ++ [c]))

end

/-- Per-node form of the descendant permutation. -/
theorem descendantOf_perm (r : NodeRef) :
    (descendantOf r).Perm (preorderDescendantsOf r) := by
  cases r with
  | tree l => exact (descOfTree_perm l.up l.cur).map NodeRef.tree
  | attr l i => exact List.Perm.refl _

/-- Per-node form of the reverse-descendant permutation. -/
theorem revDescendantOf_perm (r : NodeRef) :
    (revDescendantOf r).Perm (descendantOf r) := by
  cases r with
  | tree l => exact (revDescOfTree_perm l.up l.cur).map NodeRef.tree
  | attr l i => exact List.Perm.refl _

/-- On a singleton context, `NodeSet::descendant` is the per-node
expansion. -/
theorem descendant_singleton (r : NodeRef) :
    NodeSet.descendant [r] = descendantOf r := by
  simp [NodeSet.descendant, NodeSet.child, descendantOf_eq r]

/-- Every completed evaluation is an `Ok` node-set: the evaluator has no code
path constructing an `Err`. -/
theorem evaluatePath_isOk (ns : NodeSet) (xp : LocationPath)
    (r : Except EvaluationError XPathObject) (h : evaluatePath ns xp = some r) :
    ∃ s, r = Except.ok (XPathObject.NodeSetV s) := by
  unfold evaluatePath at h
  rcases Option.map_eq_some'.mp h with ⟨s, _, hs⟩
  exact ⟨s, hs.symm⟩

/-- A panic while filtering any member node aborts `filter_nodes`. -/
theorem filterNodes_none_of_mem :
    ∀ (ns : NodeSet) (step : Step) (n : NodeRef),
      n ∈ ns → applyFilters step n = none → filterNodes ns step = none
  | [], _, _, hmem, _ => by cases hmem
  | m :: rest, step, n, hmem, happ => by
    rcases List.mem_cons.mp hmem with h | h
    · subst h
      simp [filterNodes, happ]
    · unfold filterNodes
      cases hm : applyFilters step m with
      | none => rfl
      | some b =>
        rw [filterNodes_none_of_mem rest step n h happ]
        rfl

/-- Once the accumulator is `none` (a step panicked), the step loop stays
`none`. -/
theorem evalFold_none (ns : NodeSet) :
    ∀ steps : List Step,
      steps.foldl
        (fun acc step =>
          acc.bind (fun _ => filterNodes (selectNodes ns step) step)) none = none
  | [] => rfl
  | st :: rest => by
    simp only [List.foldl_cons, Option.bind]
    exact evalFold_none ns rest

/-- If any step of the path panics in `filter_nodes`, the whole step loop
panics. -/
theorem evalFold_none_of_step (ns : NodeSet) (step : Step)
    (hf : filterNodes (selectNodes ns step) step = none) :
    ∀ (steps : List Step) (acc : Option NodeSet), step ∈ steps →
      steps.foldl
        (fun acc st =>
          acc.bind (fun _ => filterNodes (selectNodes ns st) st)) acc = none
  | [], _, hmem => by cases hmem
  | st :: rest, acc, hmem => by
    rcases List.mem_cons.mp hmem with h | h
    · subst h
      simp only [List.foldl_cons]
      have : (acc.bind fun _ => filterNodes (selectNodes ns step) step) = none := by
        cases acc <;> simp [hf]
      rw [this]
      exact evalFold_none ns rest
    · simp only [List.foldl_cons]
      exact evalFold_none_of_step ns step hf rest _ h

/-- Names paired by `attrPairs` from index `i` refer to indices at least
`i`. -/
theorem attrPairs_mem_ge (l : Loc) :
    ∀ (attrs : List XName) (i : Nat) (nm : XName) (j : Nat),
      (nm, NodeRef.attr l j) ∈ attrPairs l i attrs → i ≤ j
  | [], _, _, _, hmem => by cases hmem
  | nm' :: rest, i, nm, j, hmem => by
    rcases List.mem_cons.mp hmem with h | h
    · cases h
      exact Nat.le_refl _
    · exact Nat.le_of_succ_le (attrPairs_mem_ge l rest (i + 1) nm j h)

/-- Within one element's attribute list, an attribute node determines its
name. -/
theorem attrPairs_snd_inj (l : Loc) :
    ∀ (attrs : List XName) (i : Nat) (nm1 nm2 : XName) (x : NodeRef),
      (nm1, x) ∈ attrPairs l i attrs → (nm2, x) ∈ attrPairs l i attrs →
      nm1 = nm2
  | [], _, _, _, _, h1, _ => by cases h1
  | nm' :: rest, i, nm1, nm2, x, h1, h2 => by
    rcases List.mem_cons.mp h1 with ha | ha <;>
      rcases List.mem_cons.mp h2 with hb | hb
    · cases ha; cases hb; rfl
    · cases ha
      exact absurd (attrPairs_mem_ge l rest (i + 1) nm2 i hb)
        (by omega)
    · cases hb
      exact absurd (attrPairs_mem_ge l rest (i + 1) nm1 i ha)
        (by omega)
    · exact attrPairs_snd_inj l rest (i + 1) nm1 nm2 x ha hb

/-- `filterMap` with an `if`-guard is `map` after `filter`. -/
theorem filterMap_if_eq {α β : Type} (p : α → Bool) (f : α → β) :
    ∀ L : List α,
      L.filterMap (fun a => if p a then some (f a) else none) =
        (L.filter p).map f
  | [] => rfl
  | a :: rest => by
    cases hp : p a <;>
      simp [List.filterMap_cons, List.filter_cons, hp, filterMap_if_eq p f rest]

/-- On a singleton element context, `NodeSet::attribute` keeps exactly the
non-namespace-named attribute nodes. -/
theorem attribute_singleton (r : NodeRef) (h : nodeType r = XTy.Element) :
    NodeSet.attributeAxis [r] =
      ((attributesOf r).filter (fun a => !(isNamespaceAttribute a.1))).map
        Prod.snd := by
  have h1 : NodeSet.attributeAxis [r] =
      (attributesOf r).filterMap
        (fun a => if isNamespaceAttribute a.1 then none else some a.2) := by
    simp [NodeSet.attributeAxis, h]
  have h2 : (fun a : XName × NodeRef =>
        if isNamespaceAttribute a.1 then none else some a.2) =
      (fun a : XName × NodeRef =>
        if !(isNamespaceAttribute a.1) then some a.2 else none) := by
    funext a
    cases hns : isNamespaceAttribute a.1 <;> simp [hns]
  rw [h1, h2]
  exact filterMap_if_eq _ _ _

/-- On a singleton element context, `NodeSet::namespace` keeps exactly the
namespace-named attribute nodes. -/
theorem namespace_singleton (r : NodeRef) (h : nodeType r = XTy.Element) :
    NodeSet.namespaceAxis [r] =
      ((attributesOf r).filter (fun a => isNamespaceAttribute a.1)).map
        Prod.snd := by
  have h1 : NodeSet.namespaceAxis [r] =
      (attributesOf r).filterMap
        (fun a => if isNamespaceAttribute a.1 then some a.2 else none) := by
    simp [NodeSet.namespaceAxis, h]
  rw [h1]
  exact filterMap_if_eq _ _ _

/-- On an acyclic tree the loop terminates and agrees with the tree-model
parent chain: enough fuel returns exactly `parentChain`. -/
theorem parentsLoop_parentChain :
    ∀ (up : Ctx) (t : XTree) (acc : List Loc) (fuel : Nat),
      up.length ≤ fuel →
      parentsLoop parentLoc fuel ((parentLoc ⟨up, t⟩).map id) acc =
        some (acc ++ parentChainAux up t)
  | [], t, acc, fuel, _ => by
    simp [parentLoc, parentsLoop, parentChainAux]
  | (d, lefts, rights) :: rest, t, acc, 0, hf => by
    simp at hf
  | (d, lefts, rights) :: rest, t, acc, fuel + 1, hf => by
    have hrec := parentsLoop_parentChain rest (.node d (lefts ++ t :: rights))
      (acc ++ [⟨rest, .node d (lefts ++ t :: rights)⟩]) fuel
      (by simpa using Nat.le_of_succ_le_succ hf)
    simp only [parentLoc, Option.map_some', Option.map_id, id_eq, parentsLoop,
      parentChainAux] at hrec ⊢
    rw [hrec]
    simp

/-- C4: for every step, the principal node type used by the node-test filter
is `Attribute` exactly when the step's axis specifier is `Attribute`, and
`Element` for every one of the other twelve axes, including the `Namespace`
axis. -/
theorem principal_node_type_attribute_only (ax : AxisSpecifier) :
    (principalOf ax = XTy.Attribute ↔ ax = AxisSpecifier.Attribute) ∧
    (ax ≠ AxisSpecifier.Attribute → principalOf ax = XTy.Element) ∧
    principalOf AxisSpecifier.Namespace = XTy.Element := by
  refine ⟨?_, ?_, rfl⟩ <;> cases ax <;> simp [principalOf]

/-- Witness for C4 at the `Namespace` axis. -/
theorem principal_node_type_attribute_only_witness :
    AxisSpecifier.Namespace ≠ AxisSpecifier.Attribute ∧
    principalOf AxisSpecifier.Namespace = XTy.Element :=
  ⟨by decide,
    (principal_node_type_attribute_only AxisSpecifier.Namespace).2.1 (by decide)⟩

/-- C5: the node-test filter matches `Named(name)` exactly when the node's
type equals the principal type and its qualified name equals the parsed name;
`Comment` and `Text` match exactly on node type, regardless of the principal
type; `Node` matches unconditionally. -/
theorem node_test_filter_semantics (principal : XTy) (node : NodeRef) :
    (∀ (s : String) (nm : XName), nameFromStr s = some nm →
      (nodeTestApply principal (NodeTest.Named s) node = some true ↔
        nodeType node = principal ∧ nodeName node = nm)) ∧
    (nodeTestApply principal NodeTest.Comment node = some true ↔
      nodeType node = XTy.Comment) ∧
    (nodeTestApply principal NodeTest.Text node = some true ↔
      nodeType node = XTy.Text) ∧
    nodeTestApply principal NodeTest.Node node = some true := by
  refine ⟨?_, ?_, ?_, rfl⟩
  · intro s nm hparse
    by_cases hty : nodeType node = principal
    · simp [nodeTestApply, hty, hparse]
    · have happ : nodeTestApply principal (NodeTest.Named s) node = some false := by
        simp [nodeTestApply, hty]
      rw [happ]
      constructor
      · intro h
        simp at h
      · intro h
        exact absurd h.1 hty
  · unfold nodeTestApply
    simp
  · unfold nodeTestApply
    simp

/-- Witness for C5 on an element named `a` and the name test `a`. -/
theorem node_test_filter_semantics_witness :
    nameFromStr "a" = some ⟨none, "a"⟩ ∧
    (nodeTestApply XTy.Element (NodeTest.Named "a")
        (NodeRef.tree ⟨[], elemN "a" []⟩) = some true ↔
      nodeType (NodeRef.tree ⟨[], elemN "a" []⟩) = XTy.Element ∧
        nodeName (NodeRef.tree ⟨[], elemN "a" []⟩) = ⟨none, "a"⟩) :=
  ⟨by rfl,
    (node_test_filter_semantics XTy.Element
        (NodeRef.tree ⟨[], elemN "a" []⟩)).1 "a" ⟨none, "a"⟩ (by rfl)⟩

/-- C2 counterexample: on the document `A{B{C}, D}`, `NodeSet::descendant`
returns `[B, D, C]` — the children first, then the grandchildren — which is
not the claimed pre-order `[B, C, D]` in which each child's subtree is fully
emitted before the next child. -/
theorem descendant_not_preorder_counterexample :
    NodeSet.descendant [NodeRef.tree ⟨[], exDescTree⟩] ≠
      preorderDescendantsOf (NodeRef.tree ⟨[], exDescTree⟩) := by
  decide

/-- C2 (amended): `NodeSet::descendant` of `{N}` returns the children of `N`
followed by the concatenated descendant expansions of each child — a
permutation of the pre-order descendant sequence, so as a multiset it equals
the nodes reachable by repeated child expansion — and it contains no attribute
or namespace nodes, but its order is not the pre-order interleaving. -/
theorem descendant_amended (r : NodeRef) :
    (NodeSet.descendant [r]).Perm (preorderDescendantsOf r) ∧
    (NodeSet.descendant [r]).all NodeRef.isTreeNode = true := by
  rw [descendant_singleton]
  refine ⟨descendantOf_perm r, ?_⟩
  cases r with
  | tree l =>
    simp only [descendantOf, List.all_eq_true]
    intro x hx
    rcases List.mem_map.mp hx with ⟨y, _, rfl⟩
    rfl
  | attr l i => rfl

/-- C8 counterexample: on the document `A{B{C, D}, E}` with context `{E}`,
`NodeSet::preceding` returns `[B, D, C]`, while reverse document order of
those same nodes is `[D, C, B]` — the nearest preceding node `D` is not
first. -/
theorem preceding_not_reverse_document_order_counterexample :
    ((docOrderOf exPrecTree).filter
        (fun x => (NodeSet.preceding [exPrecE]).contains x)).reverse ≠
      NodeSet.preceding [exPrecE] := by
  decide

/-- C8 (amended): `NodeSet::preceding` of `{N}` returns the reverse of the
preceding siblings followed by the concatenation, in that reversed order, of
each sibling's reverse-adjacency descendant expansion; as a multiset it is
exactly the preceding siblings together with their descendants, but the
sequence is adjacency order (each sibling before its own subtree's nodes),
not reverse document order for nested subtrees. -/
theorem preceding_amended (r : NodeRef) :
    NodeSet.preceding [r] =
      (NodeSet.preceding_sibling [r]).reverse ++
        (((NodeSet.preceding_sibling [r]).reverse).map revDescendantOf).flatten ∧
    (NodeSet.preceding [r]).Perm
      (((NodeSet.preceding_sibling [r]).map
          (fun s => s :: descendantOf s)).flatten) := by
  have hdef : NodeSet.preceding [r] =
      (NodeSet.preceding_sibling [r]).reverse ++
        (((NodeSet.preceding_sibling [r]).reverse).map revDescendantOf).flatten :=
    rfl
  refine ⟨hdef, ?_⟩
  rw [hdef]
  have h1 := cons_flatten_perm revDescendantOf (NodeSet.preceding_sibling [r]).reverse
  have h2 : (((NodeSet.preceding_sibling [r]).reverse.map
        (fun c => c :: revDescendantOf c)).flatten).Perm
      (((NodeSet.preceding_sibling [r]).reverse.map
        (fun c => c :: descendantOf c)).flatten) :=
    flatten_perm_of_forall _ _ _
      (fun a _ => List.Perm.cons a (revDescendantOf_perm a))
  have h3 : (((NodeSet.preceding_sibling [r]).reverse.map
        (fun c => c :: descendantOf c)).flatten).Perm
      (((NodeSet.preceding_sibling [r]).map
        (fun c => c :: descendantOf c)).flatten) :=
    List.Perm.flatten
      (List.Perm.map _ (NodeSet.preceding_sibling [r]).reverse_perm)
  exact (h1.trans h2).trans h3

/-- C1: on the document `document{a{b}}` and the two-step relative path
`child::a/child::b`, `evaluate_path` returns the empty node-set — each loop
iteration expands the original seed context, so only the last step's
expansion survives — whereas the spec-mandated left-to-right chaining
(each step consuming the previous step's filtered output) yields `{b}`. -/
theorem evaluate_path_rereads_seed_context :
    evaluatePath [exDocRef] ⟨false, [childStepNamed "a", childStepNamed "b"]⟩ =
      some (Except.ok (XPathObject.NodeSetV [])) ∧
    chainedEvaluatePath [exDocRef]
        ⟨false, [childStepNamed "a", childStepNamed "b"]⟩ =
      some (Except.ok (XPathObject.NodeSetV
        [NodeRef.tree ⟨[(elemData "a", [], []), (docData, [], [])],
          elemN "b" []⟩])) := by
  constructor
  · decide
  · decide

/-- C3: the parent-walking loop of `NodeSet::ancestor` keeps no visited set:
on a malformed tree whose parent pointer forms a cycle (a node that is its own
parent) the loop never finishes, for any number of iterations — and
`evaluate_path` can never return the declared `CycleError` (or any error),
since no code path constructs one. -/
theorem ancestor_cycle_detection_missing :
    (∀ (fuel : Nat) (acc : List Unit),
        parentsLoop (fun _ : Unit => some ()) fuel (some ()) acc = none) ∧
    (∀ (ns : NodeSet) (xp : LocationPath) (e : EvaluationError),
        evaluatePath ns xp ≠ some (Except.error e)) := by
  constructor
  · intro fuel
    induction fuel with
    | zero => intro acc; rfl
    | succ n ih => intro acc; exact ih (acc ++ [()])
  · intro ns xp e h
    rcases evaluatePath_isOk ns xp _ h with ⟨s, hs⟩
    cases hs

/-- C7: for an absolute path, `evaluate_path` begins by replacing the context
`NodeSet` with the owner-document expansion of each context node; a context
node with no owning document contributes nothing to that working set, no
error is raised (a completed evaluation is always `Ok`), and with no steps
the result is exactly that possibly-empty document set. -/
theorem absolute_path_document_replacement (ns : NodeSet) (xp : LocationPath)
    (habs : xp.root = true) :
    initialSet ns xp = ns.filterMap ownerDocument ∧
    (∀ (r : NodeRef) (rest : NodeSet), ownerDocument r = none →
      initialSet (r :: rest) xp = initialSet rest xp) ∧
    (xp.steps = [] →
      evaluatePath ns xp =
        some (Except.ok (XPathObject.NodeSetV (ns.filterMap ownerDocument)))) ∧
    (∀ res, evaluatePath ns xp = some res →
      ∃ s, res = Except.ok (XPathObject.NodeSetV s)) := by
  have hinit : ∀ ms : NodeSet, initialSet ms xp = ms.filterMap ownerDocument := by
    intro ms
    unfold initialSet
    simp [LocationPath.is_absolute, habs, NodeSet.document]
  refine ⟨hinit ns, ?_, ?_, ?_⟩
  · intro r rest hr
    rw [hinit, hinit]
    simp [List.filterMap_cons, hr]
  · intro hsteps
    unfold evaluatePath
    rw [hsteps]
    simp [hinit ns]
  · intro res h
    exact evaluatePath_isOk ns xp res h

/-- Witness for C7: an absolute empty path over the element `a` of
`document{a{b}}` starts from (and returns) the document node, and the
document node itself — which has no owner — contributes nothing. -/
theorem absolute_path_document_replacement_witness :
    initialSet [exARef] ⟨true, []⟩ = [NodeRef.tree ⟨[], exDocTree⟩] ∧
    initialSet [exDocRef] ⟨true, []⟩ = initialSet [] ⟨true, []⟩ ∧
    evaluatePath [exARef] ⟨true, []⟩ =
      some (Except.ok (XPathObject.NodeSetV [NodeRef.tree ⟨[], exDocTree⟩])) := by
  have h := absolute_path_document_replacement [exARef] ⟨true, []⟩ rfl
  have h2 := absolute_path_document_replacement [exDocRef] ⟨true, []⟩ rfl
  refine ⟨?_, ?_, ?_⟩
  · rw [h.1]
    decide
  · exact h2.2.1 exDocRef [] (by decide)
  · rw [h.2.2.1 rfl]
    decide

/-- C9: applying a step whose node test is `Named(name)` with `name` not
parseable as a qualified name to a node-set containing at least one node of
the step's principal type makes `filter_nodes` panic
(`Name::from_str(..).unwrap()`), instead of treating the node as a non-match
or returning an error. -/
theorem named_test_unparseable_name_panics
    (ns : NodeSet) (sel : Select) (preds : List Predicate) (s : String)
    (n : NodeRef)
    (htest : sel.node_test = NodeTest.Named s)
    (hparse : nameFromStr s = none)
    (hmem : n ∈ ns)
    (hty : nodeType n = principalOf sel.axis_specifier) :
    filterNodes ns ⟨sel, preds⟩ = none := by
  have hnt : nodeTestApply (principalOf sel.axis_specifier) sel.node_test n =
      none := by
    rw [htest]
    simp [nodeTestApply, hty, hparse]
  have happ : applyFilters ⟨sel, preds⟩ n = none := by
    simp [applyFilters, Step.select_expr, hnt]
  exact filterNodes_none_of_mem ns _ n hmem happ

/-- Witness for C9: the name `a:b:c` does not parse and the element `a` has
the principal type of the child axis, so the filter call panics. -/
theorem named_test_unparseable_name_panics_witness :
    nameFromStr "a:b:c" = none ∧
    nodeType exARef = principalOf AxisSpecifier.Child ∧
    filterNodes [exARef]
      ⟨⟨AxisSpecifier.Child, NodeTest.Named "a:b:c"⟩, []⟩ = none :=
  ⟨by decide, by decide,
    named_test_unparseable_name_panics [exARef]
      ⟨AxisSpecifier.Child, NodeTest.Named "a:b:c"⟩ [] "a:b:c" exARef rfl
      (by decide) (by simp) (by decide)⟩

/-- C10: if a path contains a step with at least one predicate and some
axis-expanded node passes that step's node test, `evaluate_path` panics —
`PredicateFilter::apply` is `unimplemented!` — so the evaluator is total only
when no node-test-passing node ever reaches a predicate. -/
theorem predicate_filter_unimplemented_panics
    (ns : NodeSet) (xp : LocationPath) (step : Step) (n : NodeRef)
    (hstep : step ∈ xp.steps)
    (hpred : step.predicate_exprs ≠ [])
    (hn : n ∈ selectNodes ns step)
    (hpass : nodeTestApply (principalOf step.select_expr.axis_specifier)
        step.select_expr.node_test n = some true) :
    evaluatePath ns xp = none := by
  have happ : applyFilters step n = none := by
    unfold applyFilters
    rw [hpass]
    cases hpe : step.predicate_exprs with
    | nil => exact absurd hpe hpred
    | cons p ps => simp [hpe]
  have hfn : filterNodes (selectNodes ns step) step = none :=
    filterNodes_none_of_mem _ step n hn happ
  unfold evaluatePath
  rw [evalFold_none_of_step ns step hfn xp.steps _ hstep]
  rfl

/-- Witness for C10: a single `child::node()[predicate]` step over the
document of `document{a{b}}` panics, because the element `a` passes the
`Node` test and then reaches the unimplemented predicate filter. -/
theorem predicate_filter_unimplemented_panics_witness :
    (⟨⟨AxisSpecifier.Child, NodeTest.Node⟩, [Predicate.Expr]⟩ : Step) ∈
      (⟨false, [⟨⟨AxisSpecifier.Child, NodeTest.Node⟩, [Predicate.Expr]⟩]⟩ :
        LocationPath).steps ∧
    exARef ∈ selectNodes [exDocRef]
      ⟨⟨AxisSpecifier.Child, NodeTest.Node⟩, [Predicate.Expr]⟩ ∧
    evaluatePath [exDocRef]
      ⟨false, [⟨⟨AxisSpecifier.Child, NodeTest.Node⟩, [Predicate.Expr]⟩]⟩ =
      none :=
  ⟨by simp, by decide,
    predicate_filter_unimplemented_panics [exDocRef]
      ⟨false, [⟨⟨AxisSpecifier.Child, NodeTest.Node⟩, [Predicate.Expr]⟩]⟩
      ⟨⟨AxisSpecifier.Child, NodeTest.Node⟩, [Predicate.Expr]⟩ exARef
      (by simp) (by decide) (by decide) (by decide)⟩

/-- C6: for an element node, the attribute and namespace axes partition the
element's attribute nodes — their concatenation is a permutation of all
attribute nodes, they are disjoint, and membership in each is decided solely
by whether the attribute's name is a namespace declaration; for every
non-element node both axes are empty. -/
theorem attribute_namespace_partition :
    (∀ l : Loc, nodeType (NodeRef.tree l) = XTy.Element →
      ((NodeSet.attributeAxis [NodeRef.tree l] ++
          NodeSet.namespaceAxis [NodeRef.tree l]).Perm
        ((attributesOf (NodeRef.tree l)).map Prod.snd)) ∧
      (∀ x, x ∈ NodeSet.attributeAxis [NodeRef.tree l] →
        x ∉ NodeSet.namespaceAxis [NodeRef.tree l]) ∧
      NodeSet.attributeAxis [NodeRef.tree l] =
        ((attributesOf (NodeRef.tree l)).filter
            (fun a => !(isNamespaceAttribute a.1))).map Prod.snd ∧
      NodeSet.namespaceAxis [NodeRef.tree l] =
        ((attributesOf (NodeRef.tree l)).filter
            (fun a => isNamespaceAttribute a.1)).map Prod.snd) ∧
    (∀ r : NodeRef, nodeType r ≠ XTy.Element →
      NodeSet.attributeAxis [r] = [] ∧ NodeSet.namespaceAxis [r] = []) := by
  constructor
  · intro l hl
    have ha := attribute_singleton (NodeRef.tree l) hl
    have hn := namespace_singleton (NodeRef.tree l) hl
    refine ⟨?_, ?_, ha, hn⟩
    · rw [ha, hn, ← List.map_append]
      refine List.Perm.map Prod.snd ?_
      have hsplit := List.filter_append_perm
        (fun a : XName × NodeRef => isNamespaceAttribute a.1)
        (attributesOf (NodeRef.tree l))
      exact List.perm_append_comm.trans hsplit
    · intro x hxa hxn
      rw [ha] at hxa
      rw [hn] at hxn
      rcases List.mem_map.mp hxa with ⟨a, hafilter, rfl⟩
      rcases List.mem_map.mp hxn with ⟨b, hbfilter, hsnd⟩
      rcases List.mem_filter.mp hafilter with ⟨haL, hpa⟩
      rcases List.mem_filter.mp hbfilter with ⟨hbL, hpb⟩
      have h1 : (a.1, a.2) ∈ attrPairs l 0 l.cur.data.attrs := haL
      have h2 : (b.1, a.2) ∈ attrPairs l 0 l.cur.data.attrs := by
        rw [← hsnd]
        exact hbL
      have heq := attrPairs_snd_inj l l.cur.data.attrs 0 a.1 b.1 a.2 h1 h2
      rw [← heq] at hpb
      rw [hpb] at hpa
      cases hpa
  · intro r hr
    constructor <;> simp [NodeSet.attributeAxis, NodeSet.namespaceAxis, hr]

/-- Witness for C6: on an element with attributes `id` and `xmlns:x`, the two
axes together enumerate both attribute nodes, and on an attribute node the
attribute axis is empty. -/
theorem attribute_namespace_partition_witness :
    ((NodeSet.attributeAxis [exAttrRef] ++ NodeSet.namespaceAxis [exAttrRef]).Perm
      ((attributesOf exAttrRef).map Prod.snd)) ∧
    NodeSet.attributeAxis [NodeRef.attr ⟨[], exAttrElem⟩ 0] = [] :=
  ⟨(attribute_namespace_partition.1 ⟨[], exAttrElem⟩ (by decide)).1,
    (attribute_namespace_partition.2 (NodeRef.attr ⟨[], exAttrElem⟩ 0)
      (by decide)).1⟩
